import Mathlib

/-!
# Verification of the kajiya render-graph engine and its caches

A shallow embedding of the render-graph construction/execution engine
(`src/rg/graph.rs`) and the framebuffer / image-view caches
(`src/backend/shader.rs`, `src/rg/graph.rs`) of the kajiya renderer,
together with theorems settling the specification's claims about them.

Machine integers (`u32`, Vulkan flag words, pointers) are modelled as `Nat`;
no claim depends on wrap-around behaviour except where noted.
Rust panics (`unwrap`, out-of-bounds indexing) are modelled explicitly:
functions that can panic return `Option` or the `Outcome` type below.
-/

namespace Kajiya

/-- `anyhow::Error` values, modelled as an opaque numeric code. -/
abbrev RenderError := Nat

/-- The result of running a fallible, panicking Rust computation:
`ok` for normal return, `err` for an `Err` propagated with `?`,
`panic` for a Rust panic (`unwrap` on `None`/`Err`, index out of bounds). -/
inductive Outcome (α : Type) where
  | ok : α → Outcome α
  | err : RenderError → Outcome α
  | panic : Outcome α
deriving DecidableEq, Repr

/-- Whether an `Outcome` is a normal return. -/
def Outcome.isOk {α : Type} : Outcome α → Bool
  | .ok _ => true
  | _ => false

/-- Modelled from the spec: `ImageDesc` lives in `backend/image.rs`, which is
not part of the sources at hand; the spec describes it as a value describing
a GPU resource (dimensions, format, usage) without allocating it, and
`FramebufferCacheKey::new` additionally reads per-attachment creation flags. -/
structure ImageDesc where
  width : Nat
  height : Nat
  format : Nat
  usage : Nat
  flags : Nat
deriving DecidableEq, Repr

/-- Modelled from the spec: `ImageViewDesc` lives in `backend/image.rs`, which
is not part of the sources at hand; the spec describes it as the derived
view descriptor of an image view. It is an opaque hashable value here. -/
structure ImageViewDesc where
  raw : Nat
deriving DecidableEq, Repr

/-- A GPU-side image object. `ptr` models the address identity of the
`Arc<Image>` allocation (what `Weak::as_ptr` returns); `desc` its descriptor. -/
structure Image where
  ptr : Nat
  desc : ImageDesc
deriving DecidableEq, Repr

/-- A `Weak<Image>`: a non-owning reference carrying the allocation address. -/
structure WeakImage where
  ptr : Nat
deriving DecidableEq, Repr

/-! ## Image-view cache key (`src/rg/graph.rs`, `ImageViewCacheKey`) -/

/-- `ImageViewCacheKey { image: Weak<Image>, view_desc: ImageViewDesc }`. -/
structure ImageViewCacheKey where
  image : WeakImage
  view_desc : ImageViewDesc
deriving DecidableEq, Repr

/-- The `PartialEq` implementation of `ImageViewCacheKey`:
`self.image.as_ptr() == other.image.as_ptr()` — the view descriptor is
not compared. -/
def ImageViewCacheKey.rustEq (a b : ImageViewCacheKey) : Bool :=
  a.image.ptr == b.image.ptr

/-- The `Hash` implementation of `ImageViewCacheKey`, as the sequence of words
fed to the hasher: `(self.image.as_ptr() as usize).hash(state);
self.view_desc.hash(state);` — both the pointer and the view descriptor. -/
def ImageViewCacheKey.hashStream (a : ImageViewCacheKey) : List Nat :=
  [a.image.ptr, a.view_desc.raw]

/-! ## Framebuffer cache (`src/backend/shader.rs`) -/

/-- `MAX_COLOR_ATTACHMENTS` from `src/backend/shader.rs`. -/
def MAX_COLOR_ATTACHMENTS : Nat := 8

/-- `FramebufferCacheKey { dims, color_attachments, use_depth_stencil }` with
structural (derived) equality and hashing; `color_attachments` holds one
`(vk::ImageUsageFlags, vk::ImageCreateFlags)` pair per attachment.
No owner object appears in the key. -/
structure FramebufferCacheKey where
  dims : Nat × Nat
  color_attachments : List (Nat × Nat)
  use_depth_stencil : Bool
deriving DecidableEq, Repr

/-- `FramebufferCacheKey::new(dims, color_attachments, use_depth_stencil)`:
projects each attachment's `ImageDesc` to its `(usage, flags)` pair.
The `ArrayVec` collect panics past `MAX_COLOR_ATTACHMENTS` entries, hence
`none` in that case. -/
def FramebufferCacheKey.new (dims : Nat × Nat) (color_attachments : List ImageDesc)
    (use_depth_stencil : Bool) : Option FramebufferCacheKey :=
  let ca := color_attachments.map (fun a => (a.usage, a.flags))
  if ca.length ≤ MAX_COLOR_ATTACHMENTS then
    some { dims := dims, color_attachments := ca, use_depth_stencil := use_depth_stencil }
  else
    none

/-- `RenderPassAttachmentDesc` (format, load/store ops, sample count). -/
structure RenderPassAttachmentDesc where
  format : Nat
  load_op : Nat
  store_op : Nat
  samples : Nat
deriving DecidableEq, Repr

/-- A `vk::Framebuffer` handle. -/
abbrev Framebuffer := Nat

/-- `vk::FramebufferAttachmentImageInfoKHR` with the fields the code sets. -/
structure FramebufferAttachmentImageInfo where
  width : Nat
  height : Nat
  flags : Nat
  layer_count : Nat
  view_formats : List Nat
  usage : Nat
deriving DecidableEq, Repr

/-- `vk::ImageUsageFlags::DEPTH_STENCIL_ATTACHMENT`. -/
def DEPTH_STENCIL_ATTACHMENT_USAGE : Nat := 32

/-- `vk::FramebufferCreateFlags::IMAGELESS_KHR`. -/
def IMAGELESS_KHR : Nat := 1

/-- `vk::FramebufferCreateInfo` with the fields the code sets. -/
structure FramebufferCreateInfo where
  flags : Nat
  render_pass : Nat
  width : Nat
  height : Nat
  layers : Nat
  attachments : List FramebufferAttachmentImageInfo
  attachment_count : Nat
deriving DecidableEq, Repr

/-- `FramebufferCache`: the mutex-protected entry map (modelled as an
association list keyed by structural key equality) together with the
attachment descriptors and render pass fixed at construction. -/
structure FramebufferCache where
  entries : List (FramebufferCacheKey × Framebuffer)
  color_attachment_desc : List RenderPassAttachmentDesc
  depth_attachment_desc : Option RenderPassAttachmentDesc
  render_pass : Nat
deriving DecidableEq, Repr

/-- `HashMap::get`: the first entry whose key structurally equals `key`. -/
def lookupEntry (entries : List (FramebufferCacheKey × Framebuffer))
    (key : FramebufferCacheKey) : Option Framebuffer :=
  (entries.find? (fun p => decide (p.1 = key))).map Prod.snd

/-- `HashMap::insert`: replace any entry with the same key, add the new one. -/
def insertEntry (entries : List (FramebufferCacheKey × Framebuffer))
    (key : FramebufferCacheKey) (fb : Framebuffer) :
    List (FramebufferCacheKey × Framebuffer) :=
  (key, fb) :: entries.filter (fun p => !(decide (p.1 = key)))

/-- The `vk::FramebufferCreateInfo` assembled by `get_or_create` on a miss:
per-color-attachment infos from zipping the cache's attachment descriptors
with the key's usage/flag pairs, plus an optional depth attachment.
`none` models the panic of `self.depth_attachment_desc.unwrap()` when the
key requests depth-stencil but the cache has no depth attachment. -/
def FramebufferCache.create_info (cache : FramebufferCache)
    (key : FramebufferCacheKey) : Option FramebufferCreateInfo :=
  let width := key.dims.1
  let height := key.dims.2
  let color_infos : List FramebufferAttachmentImageInfo :=
    (cache.color_attachment_desc.zip key.color_attachments).map
      (fun p =>
        { width := width, height := height, flags := p.2.2, layer_count := 1,
          view_formats := [p.1.format], usage := p.2.1 })
  let attachments? : Option (List FramebufferAttachmentImageInfo) :=
    if key.use_depth_stencil then
      match cache.depth_attachment_desc with
      | none => none
      | some d =>
        some (color_infos ++
          [{ width := width, height := height, flags := 0, layer_count := 1,
             view_formats := [d.format], usage := DEPTH_STENCIL_ATTACHMENT_USAGE }])
    else
      some color_infos
  attachments?.map (fun attachments =>
    { flags := IMAGELESS_KHR, render_pass := cache.render_pass,
      width := width, height := height, layers := 1,
      attachments := attachments, attachment_count := attachments.length })

/-- The device interface used by the framebuffer cache:
`create_framebuffer(&fbo_desc, None)`, fallible. -/
structure FbDevice where
  create_framebuffer : FramebufferCreateInfo → Except RenderError Framebuffer

/-- `FramebufferCache::get_or_create(device, key)`. Returns the outcome, the
cache state afterwards, and the list of device creation calls made (in
order), so that cache hits are observably device-free. -/
def FramebufferCache.get_or_create (device : FbDevice) (cache : FramebufferCache)
    (key : FramebufferCacheKey) :
    Outcome Framebuffer × FramebufferCache × List FramebufferCreateInfo :=
  match lookupEntry cache.entries key with
  | some entry => (.ok entry, cache, [])
  | none =>
    match cache.create_info key with
    | none => (.panic, cache, [])
    | some info =>
      match device.create_framebuffer info with
      | .error e => (.err e, cache, [info])
      | .ok entry =>
        (.ok entry, { cache with entries := insertEntry cache.entries key entry }, [info])

/-! ## Render graph (`src/rg/graph.rs`) -/

/-- `GraphRawResourceHandle { id: u32, version: u32 }` (from `rg/resource.rs`;
its construction is visible in `create_raw_resource`). -/
structure GraphRawResourceHandle where
  id : Nat
  version : Nat
deriving DecidableEq, Repr

/-- `GraphResourceDesc`: the single variant `Image(ImageDesc)`. -/
inductive GraphResourceDesc where
  | Image : ImageDesc → GraphResourceDesc
deriving DecidableEq, Repr

/-- `GraphResourceCreateInfo { desc, create_pass_idx }`. -/
structure GraphResourceCreateInfo where
  desc : GraphResourceDesc
  create_pass_idx : Nat
deriving DecidableEq, Repr

/-- `PassResourceAccessType { access_type: vk_sync::AccessType }`, the access
type modelled as an opaque code. -/
structure PassResourceAccessType where
  access_type : Nat
deriving DecidableEq, Repr

/-- `PassResourceRef { handle, access }`. -/
structure PassResourceRef where
  handle : GraphRawResourceHandle
  access : PassResourceAccessType
deriving DecidableEq, Repr

/-- A GPU image object returned by `Device::create_image`, as an opaque id. -/
abbrev GpuImage := Nat

/-- `AnyRenderResource` (from `rg/resource_registry.rs`; only its `Image`
variant is constructed in `graph.rs`). -/
inductive AnyRenderResource where
  | Image : GpuImage → AnyRenderResource
deriving DecidableEq, Repr

/-- A compiled-pipeline handle returned by `PipelineCache::register_compute`. -/
abbrev RgComputePipelineHandle := Nat

/-- The command buffer, modelled as the list of recorded commands. -/
abbrev CommandBuffer := List Nat

/-- `ResourceRegistry`: the concrete resources indexed by handle id and the
resolved compute pipelines, as handed to each pass closure. -/
structure ResourceRegistry where
  resources : List AnyRenderResource
  compute_pipelines : List RgComputePipelineHandle

/-- `DynRenderFn`: a pass's render closure. It observes the command buffer and
the registry and either extends the command stream or fails. -/
def DynRenderFn := CommandBuffer → ResourceRegistry → Except RenderError CommandBuffer

/-- `RecordedPass { read, write, render_fn }`. -/
structure RecordedPass where
  read : List PassResourceRef
  write : List PassResourceRef
  render_fn : Option DynRenderFn

/-- `RenderGraph { passes, resources, compute_pipelines }`; a compute pipeline
registration is a `(shader path, pipeline descriptor)` pair, both opaque. -/
structure RenderGraph where
  passes : List RecordedPass
  resources : List GraphResourceCreateInfo
  compute_pipelines : List (Nat × Nat)

/-- `RenderGraph::new()`. -/
def RenderGraph.new : RenderGraph :=
  { passes := [], resources := [], compute_pipelines := [] }

/-- `RenderGraph::create_raw_resource(info)`: appends a creation record and
returns a fresh handle with `id = resources.len() as u32` and `version = 0`. -/
def RenderGraph.create_raw_resource (g : RenderGraph) (info : GraphResourceCreateInfo) :
    GraphRawResourceHandle × RenderGraph :=
  (⟨g.resources.length % 2 ^ 32, 0⟩, { g with resources := g.resources ++ [info] })

/-- `RenderGraph::record_pass(pass)`: appends the pass to the ordered list. -/
def RenderGraph.record_pass (g : RenderGraph) (p : RecordedPass) : RenderGraph :=
  { g with passes := g.passes ++ [p] }

/-- `ResourceLifetime { first_access, last_access }`. -/
structure ResourceLifetime where
  first_access : Nat
  last_access : Nat
deriving DecidableEq, Repr

/-- The inner loop of `calculate_resource_lifetimes` for one pass: for each
access in `pass.read.iter().chain(pass.write.iter())`, set
`last_access = last_access.max(pass_idx)` on the lifetime slot indexed by the
handle id. Indexing out of bounds is a Rust panic, hence `none`. -/
def scanAccesses (lifetimes : List ResourceLifetime) (pass_idx : Nat) :
    List PassResourceRef → Option (List ResourceLifetime)
  | [] => some lifetimes
  | a :: rest =>
    match lifetimes[a.handle.id]? with
    | none => none
    | some slot =>
      scanAccesses
        (lifetimes.set a.handle.id { slot with last_access := slot.last_access.max pass_idx })
        pass_idx rest

/-- The outer loop of `calculate_resource_lifetimes` over the enumerated
passes. -/
def scanPasses (lifetimes : List ResourceLifetime) (pass_idx : Nat) :
    List RecordedPass → Option (List ResourceLifetime)
  | [] => some lifetimes
  | p :: rest =>
    match scanAccesses lifetimes pass_idx (p.read ++ p.write) with
    | none => none
    | some lifetimes => scanPasses lifetimes (pass_idx + 1) rest

/-- `RenderGraph::calculate_resource_lifetimes()`: start every resource's
lifetime at its creation pass index, then fold `last_access.max(pass_idx)`
over every pass's reads and writes. `none` models the out-of-bounds panic. -/
def RenderGraph.calculate_resource_lifetimes (g : RenderGraph) :
    Option (List ResourceLifetime) :=
  scanPasses
    (g.resources.map (fun res => ⟨res.create_pass_idx, res.create_pass_idx⟩)) 0 g.passes

/-- The device interface used by `execute`:
`create_image(desc, None)`, fallible. -/
structure Device where
  create_image : ImageDesc → Except RenderError GpuImage

/-- `PipelineCache::register_compute(path, desc)`, modelled as a pure resolver
from the registration pair to a pipeline handle. -/
structure PipelineCache where
  register_compute : Nat × Nat → RgComputePipelineHandle

/-- An observable step of `execute`: a device image-creation call, a pipeline
registration, or the invocation of the pass closure with the given index. -/
inductive Event where
  | createImage : GraphResourceDesc → Event
  | registerCompute : Nat × Nat → Event
  | passRun : Nat → Event
deriving DecidableEq, Repr

/-- The materialization step of `execute`: one `device.create_image` call per
creation record, in resource-list order; `.unwrap()` on a creation failure is
a Rust panic (`none`), with the trace of calls made up to that point. -/
def materialize (device : Device) :
    List GraphResourceCreateInfo → Option (List AnyRenderResource) × List Event
  | [] => (some [], [])
  | r :: rest =>
    match r.desc with
    | .Image desc =>
      match device.create_image desc with
      | .error _ => (none, [.createImage r.desc])
      | .ok img =>
        match materialize device rest with
        | (none, tr) => (none, .createImage r.desc :: tr)
        | (some imgs, tr) => (some (.Image img :: imgs), .createImage r.desc :: tr)

/-- The per-pass synchronization computation inside `execute`'s pass loop:
one `(resource, access)` entry pushed per declared read and write, reads
first, indexing the registry's resource list by handle id (out of bounds is
a Rust panic, hence `none`). -/
def passTransitions (resources : List AnyRenderResource) (p : RecordedPass) :
    Option (List (AnyRenderResource × PassResourceAccessType)) :=
  go (p.read ++ p.write)
where
  /-- Pushes the entries in declaration order. -/
  go : List PassResourceRef → Option (List (AnyRenderResource × PassResourceAccessType))
    | [] => some []
    | a :: rest =>
      match resources[a.handle.id]? with
      | none => none
      | some res =>
        match go rest with
        | none => none
        | some l => some ((res, a.access) :: l)

/-- The pass loop of `execute`: for each recorded pass in order, compute the
transitions, `unwrap` the render closure (a panic when absent) and invoke it.
A `passRun i` event is emitted at each invocation; an `Err` from the closure
is propagated, ending the loop. -/
def runPasses (reg : ResourceRegistry) (cb : CommandBuffer) (idx : Nat) :
    List RecordedPass → Outcome CommandBuffer × List Event
  | [] => (.ok cb, [])
  | p :: rest =>
    match passTransitions reg.resources p with
    | none => (.panic, [])
    | some _ =>
      match p.render_fn with
      | none => (.panic, [])
      | some f =>
        match f cb reg with
        | .error e => (.err e, [.passRun idx])
        | .ok cb =>
          match runPasses reg cb (idx + 1) rest with
          | (o, tr) => (o, .passRun idx :: tr)

/-- `RenderGraph::execute(params, dynamic_constants, cb)`, consuming the
graph: compute lifetimes (panic on an out-of-bounds handle), materialize every
resource (panic on a creation failure), resolve every registered compute
pipeline, build the registry, then run each pass in registration order.
Returns the outcome together with the full event trace. -/
def RenderGraph.execute (g : RenderGraph) (device : Device)
    (pipeline_cache : PipelineCache) (cb : CommandBuffer) :
    Outcome CommandBuffer × List Event :=
  match g.calculate_resource_lifetimes with
  | none => (.panic, [])
  | some _ =>
    match materialize device g.resources with
    | (none, tr) => (.panic, tr)
    | (some gpu_resources, tr) =>
      let compute_pipelines :=
        g.compute_pipelines.map pipeline_cache.register_compute
      let reg : ResourceRegistry :=
        { resources := gpu_resources, compute_pipelines := compute_pipelines }
      match runPasses reg cb 0 g.passes with
      | (o, tr2) =>
        (o, tr ++ g.compute_pipelines.map Event.registerCompute ++ tr2)

/-- The pass indices at which closures were invoked, in trace order. -/
def passRuns (tr : List Event) : List Nat :=
  tr.filterMap (fun e =>
    match e with
    | .passRun i => some i
    | _ => none)

/-- The device image-creation call made for a creation record's descriptor
(`match resource.desc { GraphResourceDesc::Image(desc) => create_image(desc) }`). -/
def Device.createImageCall (device : Device) : GraphResourceDesc → Except RenderError GpuImage
  | .Image desc => device.create_image desc

/-- Whether a recorded pass declares a read or write of resource id `i`. -/
def touches (p : RecordedPass) (i : Nat) : Bool :=
  (p.read ++ p.write).any (fun a => a.handle.id == i)

/-! ## Helper lemmas about the pass loop -/

theorem passRuns_nil : passRuns [] = [] := rfl

theorem passRuns_cons (e : Event) (tr : List Event) :
    passRuns (e :: tr) =
      (match e with
        | .passRun i => i :: passRuns tr
        | _ => passRuns tr) := by
  cases e <;> simp [passRuns]

theorem passRuns_append (tr tr2 : List Event) :
    passRuns (tr ++ tr2) = passRuns tr ++ passRuns tr2 := by
  simp [passRuns]

/-- The pass loop invokes closures at consecutive indices starting at `idx`;
it covers every pass exactly when the outcome is a normal return. -/
theorem runPasses_passRuns (reg : ResourceRegistry) :
    ∀ (ps : List RecordedPass) (cb : CommandBuffer) (idx : Nat),
    ∃ m, m ≤ ps.length ∧
      passRuns (runPasses reg cb idx ps).2 = List.range' idx m ∧
      ((runPasses reg cb idx ps).1.isOk = true → m = ps.length) := by
  intro ps
  induction ps with
  | nil =>
    intro cb idx
    exact ⟨0, by simp, by simp [runPasses, passRuns], by simp⟩
  | cons p rest ih =>
    intro cb idx
    cases htr : passTransitions reg.resources p with
    | none =>
      exact ⟨0, Nat.zero_le _, by simp [runPasses, htr, passRuns],
        by simp [runPasses, htr, Outcome.isOk]⟩
    | some t =>
      cases hf : p.render_fn with
      | none =>
        exact ⟨0, Nat.zero_le _, by simp [runPasses, htr, hf, passRuns],
          by simp [runPasses, htr, hf, Outcome.isOk]⟩
      | some f =>
        cases hr : f cb reg with
        | error e =>
          refine ⟨1, Nat.succ_le_succ (Nat.zero_le _), ?_, ?_⟩
          · simp [runPasses, htr, hf, hr, passRuns, List.range'_succ]
          · simp [runPasses, htr, hf, hr, Outcome.isOk]
        | ok cb2 =>
          obtain ⟨m, hm, hruns, hok⟩ := ih cb2 (idx + 1)
          refine ⟨m + 1, Nat.succ_le_succ hm, ?_, ?_⟩
          · simp only [runPasses, htr, hf, hr]
            cases hrp : runPasses reg cb2 (idx + 1) rest with
            | mk o tr =>
              rw [hrp] at hruns
              rw [passRuns_cons, hruns, List.range'_succ]
          · simp only [runPasses, htr, hf, hr]
            cases hrp : runPasses reg cb2 (idx + 1) rest with
            | mk o tr =>
              rw [hrp] at hok
              intro hk
              have := hok hk
              simp [this]

/-- Every event emitted by the pass loop is a closure invocation. -/
theorem runPasses_events (reg : ResourceRegistry) :
    ∀ (ps : List RecordedPass) (cb : CommandBuffer) (idx : Nat),
    ∀ e ∈ (runPasses reg cb idx ps).2, ∃ i, e = Event.passRun i := by
  intro ps
  induction ps with
  | nil => intro cb idx e he; simp [runPasses] at he
  | cons p rest ih =>
    intro cb idx e he
    cases htr : passTransitions reg.resources p with
    | none => simp [runPasses, htr] at he
    | some t =>
      cases hf : p.render_fn with
      | none => simp [runPasses, htr, hf] at he
      | some f =>
        cases hr : f cb reg with
        | error er =>
          simp [runPasses, htr, hf, hr] at he
          exact ⟨idx, he⟩
        | ok cb2 =>
          cases hrp : runPasses reg cb2 (idx + 1) rest with
          | mk o tr =>
            simp [runPasses, htr, hf, hr, hrp] at he
            rcases he with he | he
            · exact ⟨idx, he⟩
            · exact ih cb2 (idx + 1) e (by rw [hrp]; exact he)

/-! ## Helper lemmas about materialization -/

/-- When every creation call succeeds, materialization returns a resource per
record and the trace is exactly one creation event per record, in order. -/
theorem materialize_ok (device : Device) :
    ∀ rs : List GraphResourceCreateInfo,
    (∀ r ∈ rs, (device.createImageCall r.desc).isOk = true) →
    ∃ l, materialize device rs = (some l, rs.map (fun r => Event.createImage r.desc)) ∧
      l.length = rs.length := by
  intro rs
  induction rs with
  | nil => intro _; exact ⟨[], rfl, rfl⟩
  | cons r rest ih =>
    intro hok
    have hr := hok r (by simp)
    obtain ⟨l, hl, hlen⟩ := ih (fun q hq => hok q (by simp [hq]))
    cases hd : r.desc with
    | Image d =>
      cases hc : device.create_image d with
      | error e =>
        simp [Device.createImageCall, hd, hc, Except.isOk, Except.toBool] at hr
      | ok img =>
        refine ⟨.Image img :: l, ?_, by simp [hlen]⟩
        simp [materialize, hd, hc, hl]

/-- Every event emitted by materialization is a device image-creation call. -/
theorem materialize_events (device : Device) :
    ∀ rs : List GraphResourceCreateInfo,
    ∀ e ∈ (materialize device rs).2, ∃ d, e = Event.createImage d := by
  intro rs
  induction rs with
  | nil => intro e he; simp [materialize] at he
  | cons r rest ih =>
    intro e he
    cases hd : r.desc with
    | Image d =>
      cases hc : device.create_image d with
      | error er =>
        simp [materialize, hd, hc] at he
        exact ⟨r.desc, by rw [he, hd]⟩
      | ok img =>
        cases hm : materialize device rest with
        | mk o tr =>
          have htr : e ∈ Event.createImage r.desc :: tr := by
            cases o <;> simpa [materialize, hd, hc, hm] using he
          rcases List.mem_cons.mp htr with h | h
          · exact ⟨r.desc, h⟩
          · exact ih e (by rw [hm]; exact h)

/-- When some creation record fails, materialization makes one device call
per preceding record, one call for the failing record, and panics. -/
theorem materialize_fail (device : Device) :
    ∀ (pre : List GraphResourceCreateInfo) (r : GraphResourceCreateInfo)
      (rest : List GraphResourceCreateInfo) (e : RenderError),
    (∀ p ∈ pre, (device.createImageCall p.desc).isOk = true) →
    device.createImageCall r.desc = .error e →
    materialize device (pre ++ r :: rest) =
      (none, pre.map (fun p => Event.createImage p.desc) ++ [Event.createImage r.desc]) := by
  intro pre
  induction pre with
  | nil =>
    intro r rest e _ hfail
    cases hd : r.desc with
    | Image d =>
      rw [hd] at hfail
      simp only [Device.createImageCall] at hfail
      simp [materialize, hd, hfail]
  | cons p ptl ih =>
    intro r rest e hpre hfail
    have hp := hpre p (by simp)
    cases hd : p.desc with
    | Image d =>
      rw [hd] at hp
      simp only [Device.createImageCall] at hp
      cases hc : device.create_image d with
      | error er => simp [hc, Except.isOk, Except.toBool] at hp
      | ok img =>
        have := ih r rest e (fun q hq => hpre q (by simp [hq])) hfail
        simp [materialize, hd, hc, this]

/-! ## Helper lemmas about the lifetime scan -/

theorem scanAccesses_length :
    ∀ (accs : List PassResourceRef) (l : List ResourceLifetime) (idx : Nat)
      (l' : List ResourceLifetime),
    scanAccesses l idx accs = some l' → l'.length = l.length := by
  intro accs
  induction accs with
  | nil => intro l idx l' h; cases h; rfl
  | cons a rest ih =>
    intro l idx l' h
    unfold scanAccesses at h
    cases hg : l[a.handle.id]? with
    | none => rw [hg] at h; cases h
    | some slot =>
      rw [hg] at h
      have := ih _ _ _ h
      simpa using this

theorem scanAccesses_bounds :
    ∀ (accs : List PassResourceRef) (l : List ResourceLifetime) (idx : Nat)
      (l' : List ResourceLifetime),
    scanAccesses l idx accs = some l' →
    ∀ a ∈ accs, a.handle.id < l.length := by
  intro accs
  induction accs with
  | nil => intro l idx l' _ a ha; simp at ha
  | cons b rest ih =>
    intro l idx l' h a ha
    unfold scanAccesses at h
    cases hg : l[b.handle.id]? with
    | none => rw [hg] at h; cases h
    | some slot =>
      rw [hg] at h
      rcases List.mem_cons.mp ha with rfl | ha
      · exact (List.getElem?_eq_some_iff.mp hg).1
      · have := ih _ _ _ h a ha
        simpa using this

theorem scanPasses_length :
    ∀ (ps : List RecordedPass) (l : List ResourceLifetime) (idx : Nat)
      (out : List ResourceLifetime),
    scanPasses l idx ps = some out → out.length = l.length := by
  intro ps
  induction ps with
  | nil => intro l idx out h; cases h; rfl
  | cons p rest ih =>
    intro l idx out h
    unfold scanPasses at h
    cases hs : scanAccesses l idx (p.read ++ p.write) with
    | none => rw [hs] at h; cases h
    | some l2 =>
      rw [hs] at h
      rw [ih _ _ _ h]
      exact scanAccesses_length _ _ _ _ hs

theorem scanPasses_bounds :
    ∀ (ps : List RecordedPass) (l : List ResourceLifetime) (idx : Nat)
      (out : List ResourceLifetime),
    scanPasses l idx ps = some out →
    ∀ p ∈ ps, ∀ a ∈ p.read ++ p.write, a.handle.id < l.length := by
  intro ps
  induction ps with
  | nil => intro l idx out _ p hp; simp at hp
  | cons q rest ih =>
    intro l idx out h p hp a ha
    unfold scanPasses at h
    cases hs : scanAccesses l idx (q.read ++ q.write) with
    | none => rw [hs] at h; cases h
    | some l2 =>
      rw [hs] at h
      rcases List.mem_cons.mp hp with rfl | hp
      · exact scanAccesses_bounds _ _ _ _ hs a ha
      · have := ih _ _ _ h p hp a ha
        rwa [scanAccesses_length _ _ _ _ hs] at this

/-- A successful lifetime computation means every declared access is within
the resource list. -/
theorem calculate_bounds (g : RenderGraph) (ls : List ResourceLifetime)
    (h : g.calculate_resource_lifetimes = some ls) :
    ∀ p ∈ g.passes, ∀ a ∈ p.read ++ p.write, a.handle.id < g.resources.length := by
  intro p hp a ha
  have := scanPasses_bounds g.passes _ 0 ls h p hp a ha
  simpa using this

/-- The lifetime list has one entry per creation record. -/
theorem calculate_length (g : RenderGraph) (ls : List ResourceLifetime)
    (h : g.calculate_resource_lifetimes = some ls) :
    ls.length = g.resources.length := by
  have := scanPasses_length g.passes _ 0 ls h
  simpa using this

/-! ## Helper lemmas about the transitions computation -/

theorem passTransitions_go_some (resources : List AnyRenderResource) :
    ∀ accs : List PassResourceRef,
    (∀ a ∈ accs, a.handle.id < resources.length) →
    ∃ t, passTransitions.go resources accs = some t ∧ t.length = accs.length := by
  intro accs
  induction accs with
  | nil => intro _; exact ⟨[], rfl, rfl⟩
  | cons a rest ih =>
    intro h
    obtain ⟨t, ht, hlen⟩ := ih (fun b hb => h b (by simp [hb]))
    have ha : a.handle.id < resources.length := h a (by simp)
    cases hg : resources[a.handle.id]? with
    | none =>
      rw [List.getElem?_eq_none_iff] at hg
      omega
    | some res =>
      refine ⟨(res, a.access) :: t, ?_, by simp [hlen]⟩
      unfold passTransitions.go
      rw [hg, ht]

/-- With every declared handle in bounds, the per-pass synchronization
computation succeeds and yields one entry per declaration. -/
theorem passTransitions_some (resources : List AnyRenderResource) (p : RecordedPass)
    (h : ∀ a ∈ p.read ++ p.write, a.handle.id < resources.length) :
    ∃ t, passTransitions resources p = some t ∧
      t.length = p.read.length + p.write.length := by
  obtain ⟨t, ht, hlen⟩ := passTransitions_go_some resources (p.read ++ p.write) h
  exact ⟨t, ht, by simpa using hlen⟩

/-! ## Concrete fixtures used by witnesses and counterexamples -/

/-- A sample render-pass attachment descriptor. -/
def sampleAttachmentDesc : RenderPassAttachmentDesc := ⟨10, 0, 1, 1⟩

/-- A sample image descriptor. -/
def sampleImageDesc : ImageDesc := ⟨640, 480, 10, 16, 0⟩

/-- An owner image living at address 100. -/
def ownerA : Image := ⟨100, sampleImageDesc⟩

/-- A distinct owner image living at address 200, same descriptor. -/
def ownerB : Image := ⟨200, sampleImageDesc⟩

/-- A framebuffer cache with no entries, one color attachment, no depth. -/
def fbCache0 : FramebufferCache := ⟨[], [sampleAttachmentDesc], none, 7⟩

/-- A device whose framebuffer creation always succeeds with handle 42. -/
def fbDevice : FbDevice := ⟨fun _ => .ok 42⟩

/-- The key `FramebufferCacheKey::new` builds from `ownerA`'s descriptor. -/
def keyA : FramebufferCacheKey := ⟨(640, 480), [(16, 0)], false⟩

/-- The key `FramebufferCacheKey::new` builds from `ownerB`'s descriptor:
structurally the same value as `keyA`. -/
def keyB : FramebufferCacheKey := ⟨(640, 480), [(16, 0)], false⟩

/-- `fbCache0` after a successful miss on `keyA` inserted framebuffer 42. -/
def fbCache1 : FramebufferCache := ⟨[(keyA, 42)], [sampleAttachmentDesc], none, 7⟩

/-- A key requesting a depth-stencil attachment. -/
def keyDS : FramebufferCacheKey := ⟨(640, 480), [(16, 0)], true⟩

/-! ## C1: image-view cache key equality -/

/-- C1: the claim states two image-view cache keys are equal iff they share
the owner pointer AND the derived view descriptor, so keys with the same
owner but different view descriptors must be unequal. The code's `PartialEq`
compares only `image.as_ptr()`: at the concrete failing input below the two
keys differ only in `view_desc`, yet `rustEq` returns `true` — while the
`Hash` implementation does feed `view_desc` to the hasher, so these equal
keys hash differently, violating the `Eq`/`Hash` contract `HashMap` relies
on. -/
theorem C1_eq_ignores_view_desc :
    ImageViewCacheKey.rustEq ⟨⟨17⟩, ⟨0⟩⟩ ⟨⟨17⟩, ⟨1⟩⟩ = true ∧
    ImageViewCacheKey.hashStream ⟨⟨17⟩, ⟨0⟩⟩ ≠ ImageViewCacheKey.hashStream ⟨⟨17⟩, ⟨1⟩⟩ := by
  decide

/-! ## C2: framebuffer cache is value-keyed, not owner-keyed -/

/-- C2 counterexample: the claim states a `get_or_create` call with a key
built from a *different* owner than any previously inserted key always
misses and creates a new framebuffer via the device. Concretely: `ownerA`
and `ownerB` are distinct owner objects with equal descriptors; the key
built from `ownerB` equals the one built from `ownerA` (the key holds no
owner identity), so after inserting under `ownerA`'s key the call with
`ownerB`'s key HITS: it returns the cached framebuffer 42, makes no device
call, and leaves the cache unchanged. -/
theorem C2_counterexample :
    (ownerA.ptr = ownerB.ptr) = False ∧
    FramebufferCacheKey.new (640, 480) [ownerA.desc] false = some keyA ∧
    FramebufferCacheKey.new (640, 480) [ownerB.desc] false = some keyB ∧
    (FramebufferCache.get_or_create fbDevice fbCache0 keyA).2.1 = fbCache1 ∧
    FramebufferCache.get_or_create fbDevice fbCache1 keyB = (.ok 42, fbCache1, []) := by
  decide

/-- C2 (amended): the framebuffer cache key embeds no owner identity at all —
it is the pure value `(dims, per-attachment (usage, flags), depth-stencil
flag)` — so a `get_or_create` call whose key is built from a different owner
with equal derived descriptor fields produces an equal key and HITS a
previously inserted entry: it returns the cached framebuffer, performs no
device call, and leaves the cache unchanged. -/
theorem C2_value_keyed_hit (device : FbDevice) (cache : FramebufferCache)
    (dims : Nat × Nat) (descsA descsB : List ImageDesc) (ds : Bool)
    (kA kB : FramebufferCacheKey) (fb : Framebuffer)
    (hproj : descsA.map (fun a => (a.usage, a.flags)) =
      descsB.map (fun a => (a.usage, a.flags)))
    (hA : FramebufferCacheKey.new dims descsA ds = some kA)
    (hB : FramebufferCacheKey.new dims descsB ds = some kB)
    (hhit : lookupEntry cache.entries kA = some fb) :
    kB = kA ∧ FramebufferCache.get_or_create device cache kB = (.ok fb, cache, []) := by
  simp only [FramebufferCacheKey.new] at hA hB
  rw [hproj] at hA
  split at hA <;> split at hB
  · cases hA
    cases hB
    refine ⟨rfl, ?_⟩
    unfold FramebufferCache.get_or_create
    rw [hhit]
  all_goals contradiction

/-- C2 witness: the amended theorem applied at the concrete fixtures. -/
theorem C2_witness :
    keyB = keyA ∧ FramebufferCache.get_or_create fbDevice fbCache1 keyB = (.ok 42, fbCache1, []) :=
  C2_value_keyed_hit fbDevice fbCache1 (640, 480) [ownerA.desc] [ownerB.desc] false
    keyA keyB 42 (by decide) (by decide) (by decide) (by decide)

/-! ## C9: `get_or_create` hit/miss/failure contract -/

/-- C9 counterexample: the claim states that for every cache state and key, a
miss creates the object via the device, inserts it, and returns it. But a
key requesting depth-stencil from a cache constructed without a depth
attachment descriptor makes the miss path panic
(`self.depth_attachment_desc.unwrap()`): no device call, no insertion, no
returned object. -/
theorem C9_counterexample :
    lookupEntry fbCache0.entries keyDS = none ∧
    FramebufferCache.get_or_create fbDevice fbCache0 keyDS = (.panic, fbCache0, []) := by
  decide

/-- C9 (amended): on a hit `get_or_create` returns the cached object with no
device call and the cache unchanged; on a miss — provided the key does not
request depth-stencil from a cache lacking a depth attachment descriptor,
which panics — it assembles the creation info, and either the device
succeeds, in which case the object is inserted under the key and returned
(one device call), or the device fails, in which case that error is returned
and the cache map is unchanged (no entry inserted). -/
theorem C9_contract (device : FbDevice) (cache : FramebufferCache)
    (key : FramebufferCacheKey) :
    (∀ fb, lookupEntry cache.entries key = some fb →
      FramebufferCache.get_or_create device cache key = (.ok fb, cache, [])) ∧
    (lookupEntry cache.entries key = none →
      (key.use_depth_stencil = true → cache.depth_attachment_desc.isSome) →
      ∃ info, cache.create_info key = some info ∧
        (∀ fb, device.create_framebuffer info = .ok fb →
          FramebufferCache.get_or_create device cache key =
            (.ok fb, { cache with entries := insertEntry cache.entries key fb }, [info])) ∧
        (∀ e, device.create_framebuffer info = .error e →
          FramebufferCache.get_or_create device cache key = (.err e, cache, [info]))) := by
  constructor
  · intro fb hfb
    unfold FramebufferCache.get_or_create
    rw [hfb]
  · intro hmiss hdepth
    have hinfo : ∃ info, cache.create_info key = some info := by
      unfold FramebufferCache.create_info
      cases hds : key.use_depth_stencil with
      | false => simp [hds]
      | true =>
        have := hdepth hds
        cases hd : cache.depth_attachment_desc with
        | none => rw [hd] at this; simp at this
        | some d => simp [hds, hd]
    obtain ⟨info, hinfo⟩ := hinfo
    refine ⟨info, hinfo, ?_, ?_⟩
    · intro fb hfb
      unfold FramebufferCache.get_or_create
      simp [hmiss, hinfo, hfb]
    · intro e he
      unfold FramebufferCache.get_or_create
      simp [hmiss, hinfo, he]

/-- C9 witness: the contract applied to the empty cache and `keyA`. -/
theorem C9_witness :
    (∀ fb, lookupEntry fbCache0.entries keyA = some fb →
      FramebufferCache.get_or_create fbDevice fbCache0 keyA = (.ok fb, fbCache0, [])) ∧
    (lookupEntry fbCache0.entries keyA = none →
      (keyA.use_depth_stencil = true → fbCache0.depth_attachment_desc.isSome) →
      ∃ info, fbCache0.create_info keyA = some info ∧
        (∀ fb, fbDevice.create_framebuffer info = .ok fb →
          FramebufferCache.get_or_create fbDevice fbCache0 keyA =
            (.ok fb, { fbCache0 with entries := insertEntry fbCache0.entries keyA fb }, [info])) ∧
        (∀ e, fbDevice.create_framebuffer info = .error e →
          FramebufferCache.get_or_create fbDevice fbCache0 keyA = (.err e, fbCache0, [info]))) :=
  C9_contract fbDevice fbCache0 keyA

/-! ## Graph fixtures -/

/-- A resource-creation descriptor for the sample image. -/
def sampleGraphDesc : GraphResourceDesc := .Image sampleImageDesc

/-- The handle of the single resource in the sample graphs. -/
def handleR : GraphRawResourceHandle := ⟨0, 0⟩

/-- A read access type. -/
def accessRead : PassResourceAccessType := ⟨1⟩

/-- A write access type. -/
def accessWrite : PassResourceAccessType := ⟨2⟩

/-- P0: writes R, closure appends command 0. -/
def passP0 : RecordedPass :=
  ⟨[], [⟨handleR, accessWrite⟩], some (fun cb _ => .ok (cb ++ [0]))⟩

/-- P1: reads R, closure appends command 1. -/
def passP1 : RecordedPass :=
  ⟨[⟨handleR, accessRead⟩], [], some (fun cb _ => .ok (cb ++ [1]))⟩

/-- P2: writes R, closure appends command 2. -/
def passP2 : RecordedPass :=
  ⟨[], [⟨handleR, accessWrite⟩], some (fun cb _ => .ok (cb ++ [2]))⟩

/-- A pass whose closure always fails with error 7. -/
def passFail : RecordedPass :=
  ⟨[⟨handleR, accessRead⟩], [], some (fun _ _ => .error 7)⟩

/-- The spec's example graph: P0 (writes R), P1 (reads R), P2 (writes R)
over a single created resource. -/
def graph3 : RenderGraph := ⟨[passP0, passP1, passP2], [⟨sampleGraphDesc, 0⟩], []⟩

/-- A device whose image creation always succeeds with handle 5. -/
def rgDevice : Device := ⟨fun _ => .ok 5⟩

/-- A device whose image creation always fails with error 3. -/
def rgFailingDevice : Device := ⟨fun _ => .error 3⟩

/-- A pipeline cache resolving every registration to handle 0. -/
def rgPipelineCache : PipelineCache := ⟨fun _ => 0⟩

/-! ## C3: pass closures run in registration order -/

/-- A trace of device-only events contains no closure invocation. -/
theorem passRuns_of_no_passRun (tr : List Event)
    (h : ∀ e ∈ tr, (∃ d, e = Event.createImage d) ∨ (∃ pd, e = Event.registerCompute pd)) :
    passRuns tr = [] := by
  rw [passRuns, List.filterMap_eq_nil_iff]
  intro e he
  rcases h e he with ⟨d, rfl⟩ | ⟨pd, rfl⟩ <;> rfl

/-- C3: for every graph, `execute` invokes the recorded passes' render
closures in exactly registration order — the sequence of invoked pass
indices is `0, 1, 2, …` with no reordering regardless of the declared
read/write sets — and when `execute` returns normally every registered pass
was invoked. -/
theorem C3_registration_order (g : RenderGraph) (device : Device)
    (pc : PipelineCache) (cb : CommandBuffer) :
    passRuns (g.execute device pc cb).2 =
      List.range (passRuns (g.execute device pc cb).2).length ∧
    ((g.execute device pc cb).1.isOk = true →
      (passRuns (g.execute device pc cb).2).length = g.passes.length) := by
  cases hcalc : g.calculate_resource_lifetimes with
  | none =>
    simp [RenderGraph.execute, hcalc, passRuns, Outcome.isOk]
  | some ls =>
    cases hmat : materialize device g.resources with
    | mk o tr =>
      have htr : passRuns tr = [] := by
        apply passRuns_of_no_passRun
        intro e he
        exact .inl (materialize_events device g.resources e (by rw [hmat]; exact he))
      have htr2 : passRuns (g.compute_pipelines.map Event.registerCompute) = [] := by
        apply passRuns_of_no_passRun
        intro e he
        obtain ⟨pd, _, rfl⟩ := List.mem_map.mp he
        exact .inr ⟨pd, rfl⟩
      cases o with
      | none =>
        simp [RenderGraph.execute, hcalc, hmat, htr, Outcome.isOk]
      | some gpu =>
        obtain ⟨m, hm, hruns, hok⟩ :=
          runPasses_passRuns
            ⟨gpu, g.compute_pipelines.map pc.register_compute⟩ g.passes cb 0
        cases hrp : runPasses ⟨gpu, g.compute_pipelines.map pc.register_compute⟩ cb 0 g.passes with
        | mk o2 tr2 =>
          rw [hrp] at hruns hok
          have hexec : g.execute device pc cb =
              (o2, tr ++ g.compute_pipelines.map Event.registerCompute ++ tr2) := by
            simp [RenderGraph.execute, hcalc, hmat, hrp]
          rw [hexec]
          simp only [passRuns_append, htr, htr2, List.nil_append]
          constructor
          · rw [hruns, List.length_range', List.range_eq_range']
          · intro hk
            rw [hruns, List.length_range']
            exact hok hk

/-- C3 witness: on the spec's three-pass example graph the trace of invoked
pass indices is exactly `[0, 1, 2]`. -/
theorem C3_witness :
    passRuns (graph3.execute rgDevice rgPipelineCache []).2 =
      List.range (passRuns (graph3.execute rgDevice rgPipelineCache []).2).length ∧
    ((graph3.execute rgDevice rgPipelineCache []).1.isOk = true →
      (passRuns (graph3.execute rgDevice rgPipelineCache []).2).length =
        graph3.passes.length) :=
  C3_registration_order graph3 rgDevice rgPipelineCache []

/-! ## C4: materialization and pipeline resolution precede all closures -/

/-- C4: within one `execute` call whose lifetime scan succeeds and whose
device creations succeed, the event trace starts with exactly one device
image-creation call per creation record, in resource-list order, followed by
one pipeline registration per registered compute pipeline, and everything
after that consists solely of pass-closure invocations: both materialization
and pipeline resolution complete before the first closure runs, and no
further device creation (no repopulation of the registry's resource list)
happens during pass execution. -/
theorem C4_materialization_precedes_passes (g : RenderGraph) (device : Device)
    (pc : PipelineCache) (cb : CommandBuffer) (ls : List ResourceLifetime)
    (hcalc : g.calculate_resource_lifetimes = some ls)
    (hok : ∀ r ∈ g.resources, (device.createImageCall r.desc).isOk = true) :
    ∃ tr2, (g.execute device pc cb).2 =
        g.resources.map (fun r => Event.createImage r.desc) ++
          g.compute_pipelines.map Event.registerCompute ++ tr2 ∧
      ∀ e ∈ tr2, ∃ i, e = Event.passRun i := by
  obtain ⟨l, hmat, _⟩ := materialize_ok device g.resources hok
  cases hrp : runPasses ⟨l, g.compute_pipelines.map pc.register_compute⟩ cb 0 g.passes with
  | mk o2 tr2 =>
    refine ⟨tr2, ?_, ?_⟩
    · simp [RenderGraph.execute, hcalc, hmat, hrp]
    · intro e he
      exact runPasses_events _ g.passes cb 0 e (by rw [hrp]; exact he)

/-- C4 witness: the theorem applied to the three-pass sample graph. -/
theorem C4_witness :
    ∃ tr2, (graph3.execute rgDevice rgPipelineCache []).2 =
        graph3.resources.map (fun r => Event.createImage r.desc) ++
          graph3.compute_pipelines.map Event.registerCompute ++ tr2 ∧
      ∀ e ∈ tr2, ∃ i, e = Event.passRun i :=
  C4_materialization_precedes_passes graph3 rgDevice rgPipelineCache [] [⟨0, 2⟩]
    (by decide) (by decide)

/-! ## C5: a device creation failure panics instead of returning an error -/

/-- A one-resource, one-pass graph used to exercise the failure path. -/
def graphC5 : RenderGraph := ⟨[passP0], [⟨sampleGraphDesc, 0⟩], []⟩

/-- C5 counterexample: the claim states a device-level resource-creation
failure makes `execute` return an error result to the caller. On the
concrete graph below with a device whose `create_image` fails, `execute`
does not return an `err` outcome: the code calls `.unwrap()` on the creation
result and panics. -/
theorem C5_counterexample :
    graphC5.execute rgFailingDevice rgPipelineCache [] =
      (Outcome.panic, [Event.createImage sampleGraphDesc]) := by
  decide

/-- C5 (amended): when a device-level resource creation fails during
`execute`'s materialization step, `execute` panics (the creation result is
`.unwrap()`ed rather than propagated as an error result), aborting the
remainder of that frame's execution: each record before the failing one got
exactly one creation call, the failing record's call is not retried, and no
pipeline registration or pass closure runs. -/
theorem C5_creation_failure_panics (g : RenderGraph) (device : Device)
    (pc : PipelineCache) (cb : CommandBuffer) (ls : List ResourceLifetime)
    (pre : List GraphResourceCreateInfo) (r : GraphResourceCreateInfo)
    (rest : List GraphResourceCreateInfo) (e : RenderError)
    (hcalc : g.calculate_resource_lifetimes = some ls)
    (hsplit : g.resources = pre ++ r :: rest)
    (hpre : ∀ p ∈ pre, (device.createImageCall p.desc).isOk = true)
    (hfail : device.createImageCall r.desc = .error e) :
    g.execute device pc cb =
      (.panic, pre.map (fun p => Event.createImage p.desc) ++ [Event.createImage r.desc]) := by
  have hmat := materialize_fail device pre r rest e hpre hfail
  rw [← hsplit] at hmat
  simp [RenderGraph.execute, hcalc, hmat]

/-- C5 witness: the amended theorem applied to the concrete failing graph. -/
theorem C5_witness :
    graphC5.execute rgFailingDevice rgPipelineCache [] =
      (.panic, ([] : List GraphResourceCreateInfo).map (fun p => Event.createImage p.desc) ++
        [Event.createImage sampleGraphDesc]) :=
  C5_creation_failure_panics graphC5 rgFailingDevice rgPipelineCache [] [⟨0, 0⟩]
    [] ⟨sampleGraphDesc, 0⟩ [] 3 (by decide) rfl (by simp) rfl

/-! ## C6: a pass-closure error stops execution, earlier passes stay run -/

/-- If every pass up to `k` has a total succeeding closure and the `k`-th
pass's closure always fails with `e`, the pass loop returns `err e` after
invoking exactly the closures at offsets `0..k`. -/
theorem runPasses_error_at (reg : ResourceRegistry) (e : RenderError) :
    ∀ (ps : List RecordedPass) (k : Nat) (cb : CommandBuffer) (idx : Nat),
    (∀ p ∈ ps, ∀ a ∈ p.read ++ p.write, a.handle.id < reg.resources.length) →
    (∀ j, j < k → ∃ p f, ps[j]? = some p ∧ p.render_fn = some f ∧
      ∀ c r, ∃ c2, f c r = Except.ok c2) →
    (∃ p f, ps[k]? = some p ∧ p.render_fn = some f ∧
      ∀ c r, f c r = Except.error e) →
    (runPasses reg cb idx ps).1 = .err e ∧
      passRuns (runPasses reg cb idx ps).2 = List.range' idx (k + 1) := by
  intro ps
  induction ps with
  | nil =>
    intro k cb idx _ _ hk
    obtain ⟨p, f, hp, _⟩ := hk
    simp at hp
  | cons q rest ih =>
    intro k cb idx hb hpre hk
    obtain ⟨t, ht, _⟩ := passTransitions_some reg.resources q (hb q (by simp))
    cases k with
    | zero =>
      obtain ⟨p, f, hp, hf, herr⟩ := hk
      rw [List.getElem?_cons_zero] at hp
      cases hp
      refine ⟨?_, ?_⟩
      · simp [runPasses, ht, hf, herr cb reg]
      · simp [runPasses, ht, hf, herr cb reg, passRuns, List.range'_succ]
    | succ k =>
      obtain ⟨p, f, hp0, hf, hok⟩ := hpre 0 (Nat.succ_pos k)
      rw [List.getElem?_cons_zero] at hp0
      cases hp0
      obtain ⟨c2, hc2⟩ := hok cb reg
      have ihres := ih k c2 (idx + 1) (fun p hp => hb p (by simp [hp]))
        (fun j hj => by
          obtain ⟨p, f2, hpj, hf2, hok2⟩ := hpre (j + 1) (Nat.succ_lt_succ hj)
          rw [List.getElem?_cons_succ] at hpj
          exact ⟨p, f2, hpj, hf2, hok2⟩)
        (by
          obtain ⟨p, f2, hpk, hf2, herr2⟩ := hk
          rw [List.getElem?_cons_succ] at hpk
          exact ⟨p, f2, hpk, hf2, herr2⟩)
      cases hrp : runPasses reg c2 (idx + 1) rest with
      | mk o2 tr2 =>
        rw [hrp] at ihres
        refine ⟨?_, ?_⟩
        · simp [runPasses, ht, hf, hc2, hrp, ihres.1]
        · simp only [runPasses, ht, hf, hc2, hrp]
          rw [passRuns_cons, ihres.2]
          simp [List.range'_succ]

/-- C6: when the lifetime scan and all resource creations succeed, the first
`k` passes' closures succeed and the `k`-th pass's closure returns error
`e`, `execute` returns that error, the closures of passes `0..k` have run
(and are not rolled back), and no later pass's closure is invoked. -/
theorem C6_pass_error_propagates (g : RenderGraph) (device : Device)
    (pc : PipelineCache) (cb : CommandBuffer) (ls : List ResourceLifetime)
    (k : Nat) (e : RenderError)
    (hcalc : g.calculate_resource_lifetimes = some ls)
    (hok : ∀ r ∈ g.resources, (device.createImageCall r.desc).isOk = true)
    (hpre : ∀ j, j < k → ∃ p f, g.passes[j]? = some p ∧ p.render_fn = some f ∧
      ∀ c r, ∃ c2, f c r = Except.ok c2)
    (hk : ∃ p f, g.passes[k]? = some p ∧ p.render_fn = some f ∧
      ∀ c r, f c r = Except.error e) :
    (g.execute device pc cb).1 = .err e ∧
      passRuns (g.execute device pc cb).2 = List.range (k + 1) := by
  obtain ⟨l, hmat, hlen⟩ := materialize_ok device g.resources hok
  have hb : ∀ p ∈ g.passes, ∀ a ∈ p.read ++ p.write,
      a.handle.id <
        (ResourceRegistry.mk l (g.compute_pipelines.map pc.register_compute)).resources.length := by
    intro p hp a ha
    have := calculate_bounds g ls hcalc p hp a ha
    simpa [hlen] using this
  have hrr := runPasses_error_at
    ⟨l, g.compute_pipelines.map pc.register_compute⟩ e g.passes k cb 0 hb hpre hk
  cases hrp : runPasses ⟨l, g.compute_pipelines.map pc.register_compute⟩ cb 0 g.passes with
  | mk o2 tr2 =>
    rw [hrp] at hrr
    have hexec : g.execute device pc cb =
        (o2, g.resources.map (fun r => Event.createImage r.desc) ++
          g.compute_pipelines.map Event.registerCompute ++ tr2) := by
      simp [RenderGraph.execute, hcalc, hmat, hrp]
    have hmap1 : passRuns (g.resources.map (fun r => Event.createImage r.desc)) = [] := by
      apply passRuns_of_no_passRun
      intro ev hev
      obtain ⟨r2, _, rfl⟩ := List.mem_map.mp hev
      exact .inl ⟨r2.desc, rfl⟩
    have hmap2 : passRuns (g.compute_pipelines.map Event.registerCompute) = [] := by
      apply passRuns_of_no_passRun
      intro ev hev
      obtain ⟨pd, _, rfl⟩ := List.mem_map.mp hev
      exact .inr ⟨pd, rfl⟩
    rw [hexec]
    refine ⟨hrr.1, ?_⟩
    simp only [passRuns_append, hmap1, hmap2, List.nil_append]
    rw [hrr.2, List.range_eq_range']

/-- A two-pass graph whose second pass's closure always fails with error 7. -/
def graphC6 : RenderGraph := ⟨[passP0, passFail], [⟨sampleGraphDesc, 0⟩], []⟩

/-- C6 witness: on `graphC6`, `execute` returns error 7 after running exactly
the closures of passes 0 and 1. -/
theorem C6_witness :
    (graphC6.execute rgDevice rgPipelineCache []).1 = .err 7 ∧
      passRuns (graphC6.execute rgDevice rgPipelineCache []).2 = List.range 2 :=
  C6_pass_error_propagates graphC6 rgDevice rgPipelineCache [] [⟨0, 1⟩] 1 7
    (by decide) (by decide)
    (fun j hj =>
      match j, hj with
      | 0, _ => ⟨passP0, fun cb _ => .ok (cb ++ [0]), rfl, rfl, fun c _ => ⟨c ++ [0], rfl⟩⟩)
    ⟨passFail, fun _ _ => .error 7, rfl, rfl, fun _ _ => rfl⟩

/-! ## C8: duplicate declarations are not merged -/

/-- A pass declaring the same handle read twice. -/
def dupPass : RecordedPass :=
  ⟨[⟨handleR, accessRead⟩, ⟨handleR, accessRead⟩], [], some (fun cb _ => .ok cb)⟩

/-- C8 counterexample: the claim states that declaring the same handle twice
with the same read access yields a single logical access-type entry in the
per-pass synchronization computation. On the concrete duplicate-read pass
below, the computation performed by `execute`'s pass loop yields two
independent entries for the resource, not one. -/
theorem C8_counterexample :
    passTransitions [AnyRenderResource.Image 5] dupPass =
      some [(AnyRenderResource.Image 5, accessRead), (AnyRenderResource.Image 5, accessRead)] ∧
    (passTransitions [AnyRenderResource.Image 5] dupPass).map List.length = some 2 := by
  decide

/-- C8 (amended): the per-pass synchronization computation performed during
`execute` produces exactly one `(resource, access-type)` entry per declared
read and write — duplicate declarations of the same handle are kept as
independent entries, not merged. -/
theorem C8_entry_per_declaration (resources : List AnyRenderResource) (p : RecordedPass)
    (hb : ∀ a ∈ p.read ++ p.write, a.handle.id < resources.length) :
    ∃ t, passTransitions resources p = some t ∧
      t.length = p.read.length + p.write.length :=
  passTransitions_some resources p hb

/-- C8 witness: the duplicate-read pass yields a transitions list of length
two (one entry per declaration). -/
theorem C8_witness :
    ∃ t, passTransitions [AnyRenderResource.Image 5] dupPass = some t ∧
      t.length = dupPass.read.length + dupPass.write.length :=
  C8_entry_per_declaration [AnyRenderResource.Image 5] dupPass (by decide)

/-! ## C10: out-of-bounds handle panics before anything runs -/

/-- C10: when any recorded pass declares an access whose handle id is not
below the number of creation records, `execute` panics during the initial
lifetime scan: the trace is empty — no resource was materialized, no
pipeline registered, and no pass closure invoked. -/
theorem C10_oob_access_panics (g : RenderGraph) (device : Device)
    (pc : PipelineCache) (cb : CommandBuffer) (p : RecordedPass) (a : PassResourceRef)
    (hp : p ∈ g.passes) (ha : a ∈ p.read ++ p.write)
    (hoob : g.resources.length ≤ a.handle.id) :
    g.execute device pc cb = (.panic, []) := by
  cases hcalc : g.calculate_resource_lifetimes with
  | some ls =>
    have := calculate_bounds g ls hcalc p hp a ha
    omega
  | none => simp [RenderGraph.execute, hcalc]

/-- A pass referencing handle id 5 of a graph with no creation records. -/
def passOOB : RecordedPass :=
  ⟨[⟨⟨5, 0⟩, accessRead⟩], [], some (fun cb _ => .ok cb)⟩

/-- A graph with an out-of-bounds access and no resources. -/
def graphOOB : RenderGraph := ⟨[passOOB], [], []⟩

/-- C10 witness: executing the out-of-bounds graph panics with an empty
trace. -/
theorem C10_witness :
    graphOOB.execute rgDevice rgPipelineCache [] = (.panic, []) :=
  C10_oob_access_panics graphOOB rgDevice rgPipelineCache [] passOOB
    ⟨⟨5, 0⟩, accessRead⟩ (List.mem_singleton.mpr rfl) (by simp [passOOB]) (by decide)

/-! ## C7: computed resource lifetimes -/

/-- The running `last_access` fold restricted to the passes from offset
`idx` on, starting from `cur`. -/
def lastFrom (i : Nat) : Nat → List RecordedPass → Nat → Nat
  | _, [], cur => cur
  | idx, p :: rest, cur =>
    lastFrom i (idx + 1) rest (if touches p i then cur.max idx else cur)

/-- Spec-side characterization: the maximum pass index among all passes that
read or write resource id `i`, taken together with the creation index. -/
def lastAccessSpec (g : RenderGraph) (i : Nat) (createIdx : Nat) : Nat :=
  ((g.passes.enum.filter (fun jp => touches jp.2 i)).map Prod.fst).foldl Nat.max createIdx

/-- `Nat.max` absorbs a repeated argument. -/
theorem max_absorb (b a : Nat) : (a.max b).max b = a.max b := by
  show max (max a b) b = max a b
  omega

/-- One scan step: the slot at `i` keeps its `first_access` and its
`last_access` is maxed with `idx` exactly when some access hits `i`. -/
theorem scanAccesses_get :
    ∀ (accs : List PassResourceRef) (l : List ResourceLifetime) (idx : Nat)
      (l' : List ResourceLifetime),
    scanAccesses l idx accs = some l' →
    ∀ i, i < l.length →
    ∃ slot, l[i]? = some slot ∧
      l'[i]? = some ⟨slot.first_access,
        if accs.any (fun a => a.handle.id == i) then slot.last_access.max idx
        else slot.last_access⟩ := by
  intro accs
  induction accs with
  | nil =>
    intro l idx l' h i hi
    cases h
    cases hg : l[i]? with
    | none => rw [List.getElem?_eq_none_iff] at hg; omega
    | some slot => exact ⟨slot, rfl, by simp⟩
  | cons a rest ih =>
    intro l idx l' h i hi
    unfold scanAccesses at h
    cases hg : l[a.handle.id]? with
    | none => rw [hg] at h; cases h
    | some slot0 =>
      rw [hg] at h
      have hlen2 :
          (l.set a.handle.id
            { slot0 with last_access := slot0.last_access.max idx }).length = l.length := by
        simp
      by_cases hai : a.handle.id = i
      · subst hai
        obtain ⟨slot2, hslot2, hout⟩ := ih _ _ _ h a.handle.id (by omega)
        have hset : (l.set a.handle.id
            { slot0 with last_access := slot0.last_access.max idx })[a.handle.id]? =
            some { slot0 with last_access := slot0.last_access.max idx } :=
          List.getElem?_set_eq_of_lt _ (List.getElem?_eq_some_iff.mp hg).1
        rw [hset] at hslot2
        cases hslot2
        refine ⟨slot0, hg, ?_⟩
        rw [hout]
        have hmax : (slot0.last_access.max idx).max idx = slot0.last_access.max idx :=
          max_absorb idx slot0.last_access
        by_cases hrest : rest.any (fun b => b.handle.id == a.handle.id)
        · simp [hrest, hmax]
        · simp [hrest]
      · obtain ⟨slot2, hslot2, hout⟩ := ih _ _ _ h i (by omega)
        rw [List.getElem?_set_ne hai] at hslot2
        refine ⟨slot2, hslot2, ?_⟩
        rw [hout]
        have : (a.handle.id == i) = false := by
          simp [hai]
        simp [this]

/-- The whole scan: the slot at `i` keeps its `first_access`, and its final
`last_access` is the `lastFrom` fold over the scanned passes. -/
theorem scanPasses_get :
    ∀ (ps : List RecordedPass) (l : List ResourceLifetime) (idx : Nat)
      (out : List ResourceLifetime),
    scanPasses l idx ps = some out →
    ∀ i, i < l.length →
    ∃ slot, l[i]? = some slot ∧
      out[i]? = some ⟨slot.first_access, lastFrom i idx ps slot.last_access⟩ := by
  intro ps
  induction ps with
  | nil =>
    intro l idx out h i hi
    cases h
    cases hg : l[i]? with
    | none => rw [List.getElem?_eq_none_iff] at hg; omega
    | some slot => exact ⟨slot, rfl, by simp [lastFrom]⟩
  | cons p rest ih =>
    intro l idx out h i hi
    unfold scanPasses at h
    cases hs : scanAccesses l idx (p.read ++ p.write) with
    | none => rw [hs] at h; cases h
    | some l2 =>
      rw [hs] at h
      obtain ⟨slot, hslot, hl2⟩ := scanAccesses_get _ _ _ _ hs i hi
      have hi2 : i < l2.length := by
        rw [scanAccesses_length _ _ _ _ hs]; exact hi
      obtain ⟨slot2, hslot2, hout⟩ := ih _ _ _ h i hi2
      rw [hl2] at hslot2
      cases hslot2
      refine ⟨slot, hslot, ?_⟩
      rw [hout]
      rfl

/-- The running fold never decreases below its seed. -/
theorem lastFrom_ge (i : Nat) :
    ∀ (ps : List RecordedPass) (idx cur : Nat), cur ≤ lastFrom i idx ps cur := by
  intro ps
  induction ps with
  | nil => intro idx cur; exact Nat.le_refl cur
  | cons p rest ih =>
    intro idx cur
    unfold lastFrom
    refine Nat.le_trans ?_ (ih (idx + 1) _)
    by_cases h : touches p i <;> simp [h, Nat.le_max_left]

/-- The running fold equals the fold of `Nat.max` over the indices of the
enumerated passes touching `i`. -/
theorem lastFrom_eq_foldl (i : Nat) :
    ∀ (ps : List RecordedPass) (idx cur : Nat),
    lastFrom i idx ps cur =
      (((List.enumFrom idx ps).filter (fun jp => touches jp.2 i)).map Prod.fst).foldl
        Nat.max cur := by
  intro ps
  induction ps with
  | nil => intro idx cur; rfl
  | cons p rest ih =>
    intro idx cur
    unfold lastFrom
    by_cases h : touches p i
    · simp only [List.enumFrom, List.filter_cons, h, List.map_cons, List.foldl_cons]
      exact ih (idx + 1) (cur.max idx)
    · simp only [List.enumFrom, List.filter_cons, h, Bool.false_eq_true, if_false,
        List.map_cons]
      exact ih (idx + 1) cur

/-- A resource touched by no pass keeps its seed. -/
theorem lastFrom_untouched (i : Nat) :
    ∀ (ps : List RecordedPass) (idx cur : Nat),
    (∀ p ∈ ps, touches p i = false) → lastFrom i idx ps cur = cur := by
  intro ps
  induction ps with
  | nil => intro idx cur _; rfl
  | cons p rest ih =>
    intro idx cur h
    unfold lastFrom
    rw [h p (by simp)]
    simpa using ih (idx + 1) cur (fun q hq => h q (by simp [hq]))

/-- C7: for every graph whose lifetime computation succeeds and every
resource, the computed lifetime has `first_access` equal to the resource's
creation pass index and `last_access` equal to the maximum pass index among
all passes reading or writing that resource id taken together with the
creation index; hence `first_access ≤ last_access`, and a resource never
read or written has `last_access = first_access`. -/
theorem C7_lifetime_invariants (g : RenderGraph) (ls : List ResourceLifetime) (i : Nat)
    (hcalc : g.calculate_resource_lifetimes = some ls) (hi : i < g.resources.length) :
    ∃ res lt, g.resources[i]? = some res ∧ ls[i]? = some lt ∧
      lt.first_access = res.create_pass_idx ∧
      lt.last_access = lastAccessSpec g i res.create_pass_idx ∧
      lt.first_access ≤ lt.last_access ∧
      ((∀ p ∈ g.passes, touches p i = false) → lt.last_access = lt.first_access) := by
  unfold RenderGraph.calculate_resource_lifetimes at hcalc
  have hi0 : i < (g.resources.map
      (fun res => (⟨res.create_pass_idx, res.create_pass_idx⟩ : ResourceLifetime))).length := by
    simpa using hi
  obtain ⟨slot, hslot, hout⟩ := scanPasses_get g.passes _ 0 ls hcalc i hi0
  rw [List.getElem?_map] at hslot
  cases hres : g.resources[i]? with
  | none =>
    rw [hres] at hslot
    cases hslot
  | some res =>
    rw [hres] at hslot
    cases hslot
    refine ⟨res, _, rfl, hout, rfl, ?_, ?_, ?_⟩
    · show lastFrom i 0 g.passes res.create_pass_idx = lastAccessSpec g i res.create_pass_idx
      rw [lastFrom_eq_foldl]
      rfl
    · exact lastFrom_ge i g.passes 0 res.create_pass_idx
    · intro h
      exact lastFrom_untouched i g.passes 0 res.create_pass_idx h

/-- C7 witness: on the three-pass sample graph, resource 0 is created at
pass 0 and last accessed at pass 2. -/
theorem C7_witness :
    ∃ res lt, graph3.resources[0]? = some res ∧
      (([⟨0, 2⟩] : List ResourceLifetime))[0]? = some lt ∧
      lt.first_access = res.create_pass_idx ∧
      lt.last_access = lastAccessSpec graph3 0 res.create_pass_idx ∧
      lt.first_access ≤ lt.last_access ∧
      ((∀ p ∈ graph3.passes, touches p 0 = false) → lt.last_access = lt.first_access) :=
  C7_lifetime_invariants graph3 [⟨0, 2⟩] 0 (by decide) (by decide)

end Kajiya
